import Mathlib

set_option maxHeartbeats 1000000

/-!
Verification of a DS18B20-style 1-wire thermometer driver.

The program under study wires a 1-wire bus master to a DS18B20 temperature
sensor family: it enumerates devices with the binary-tree ROM search, reads
and writes the scratchpad with CRC8 validation, and decodes fixed-point
temperatures.  The protocol engine (search, CRC, command layer) lives in the
one_wire_bus and ds18b20 crates, which are not part of this repository's
sources; those parts are modelled here from the specification.  The two
driver functions get_temperature and test_config are embedded from
src/main.rs directly.

Addresses are modelled as lists of 64 booleans, bit 0 (the least significant
bit of the family code, transmitted first on the wire) at the head.  Bytes
are naturals, masked explicitly where width matters.
-/

/-- Strict order on equal-length bit strings read head first (address bit 0
first), with false below true: a string is below another iff at the first
position where they differ it carries false.  This is the order in which the
ROM search visits addresses when the 0-branch is explored first. -/
def lexLt : List Bool → List Bool → Bool
  | [], _ => false
  | _ :: _, [] => false
  | a :: as, b :: bs => (!a && b) || ((a == b) && lexLt as bs)

/-- Devices whose next address bit equals b, with that bit consumed.  On the
wire this is the set of devices still participating after the master writes
bit b back. -/
def splitHeads (s : List (List Bool)) (b : Bool) : List (List Bool) :=
  (s.filter (fun a => a.head? == some b)).map List.tail

/-- Modelled from the spec: one traversal of the binary-tree ROM search
(one_wire_bus device_search internals, spec section 4.2, not in src).  At
each depth every remaining device transmits its next address bit and its
complement; a forced bit is taken as is, while at a collision the traversal
follows the plan entry for that depth (none means the default 0-branch).
The returned flags record, per depth, whether a collision was resolved to
the 0-branch so the 1-branch remains unexplored there. -/
def searchRun : List (List Bool) → List (Option Bool) → Option (List Bool × List Bool)
  | s, [] => if s = [] then none else some ([], [])
  | s, p :: plan =>
    if splitHeads s false = [] then
      if splitHeads s true = [] then none
      else (searchRun (splitHeads s true) plan).map (fun r => (true :: r.1, false :: r.2))
    else
      if splitHeads s true = [] then
        (searchRun (splitHeads s false) plan).map (fun r => (false :: r.1, false :: r.2))
      else
        (searchRun (if p.getD false then splitHeads s true else splitHeads s false) plan).map
          (fun r => (p.getD false :: r.1, (!p.getD false) :: r.2))

/-- Modelled from the spec: the resumable search cursor (spec section 3,
SearchState).  It records the address found by the previous call and, for
each of the 64 depths, whether an alternate 1-branch remains unexplored
there. -/
structure SearchState where
  address : List Bool
  flags : List Bool
  deriving DecidableEq

/-- Index of the deepest recorded unexplored 1-branch, if any. -/
def lastFlagged : List Bool → Option Nat
  | [] => none
  | b :: rest =>
    match lastFlagged rest with
    | some i => some (i + 1)
    | none => if b then some 0 else none

/-- Modelled from the spec: the plan a resumed search follows.  Below the
chosen branch depth it repeats the previous address bit, at that depth it
takes the unexplored 1-branch, and beyond it it falls back to the 0-branch
default. -/
def resumePlan (p : List Bool) (d : Nat) : List (Option Bool) :=
  (p.take d).map some ++ some true :: List.replicate (p.length - d - 1) none

/-- Modelled from the spec: one call of one_wire_bus device_search (spec
section 4.2, not in src).  A reset with no presence pulse yields an empty
result; a fresh search explores the 0-branch at every collision; a resumed
search restarts at the deepest unexplored 1-branch recorded in the state,
and returns none when no unexplored branch remains (tree exhausted). -/
def deviceSearchStep (bus : List (List Bool)) (st : Option SearchState) :
    Option (List Bool × SearchState) :=
  if bus = [] then none
  else
    match st with
    | none => (searchRun bus (List.replicate 64 none)).map (fun r => (r.1, ⟨r.1, r.2⟩))
    | some s =>
      match lastFlagged s.flags with
      | none => none
      | some d => (searchRun bus (resumePlan s.address d)).map (fun r => (r.1, ⟨r.1, r.2⟩))

/-- Repeated search calls threading the evolving state, collecting the
addresses returned, with explicit fuel. -/
def searchAllAux : Nat → List (List Bool) → Option SearchState → List (List Bool)
  | 0, _, _ => []
  | fuel + 1, bus, st =>
    match deviceSearchStep bus st with
    | none => []
    | some (a, st') => a :: searchAllAux fuel bus (some st')

/-- All addresses produced by running the search to exhaustion (the number
of devices on the bus bounds the number of successful calls). -/
def searchAll (bus : List (List Bool)) : List (List Bool) :=
  searchAllAux bus.length bus none

/-- Boolean test that the first list is an initial segment of the second. -/
def leadsWith : List Bool → List Bool → Bool
  | [], _ => true
  | _ :: _, [] => false
  | q :: qs, a :: as => (q == a) && leadsWith qs as

/-- Modelled from the spec: one bit step of the iterative LSB-first CRC8
with polynomial x^8+x^5+x^4+1, 0x8C taps (spec section 4.3, not in src).
The incoming data bit is mixed with the low state bit; the state shifts
right and the taps are applied when the mix is set. -/
def crc8Bit (c : Nat) (b : Bool) : Nat :=
  if (c % 2 == 1) != b then (c / 2) ^^^ 0x8C else c / 2

/-- Inverse of one CRC8 bit step for states below 256: the top bit of the
output reveals whether the taps were applied, from which the previous state
is reconstructed. -/
def crc8BitInv (o : Nat) (b : Bool) : Nat :=
  let mix := 128 ≤ o
  let c' := if mix then o ^^^ 0x8C else o
  2 * c' + (if (decide mix) != b then 1 else 0)

/-- The eight bits of a byte, least significant first, as transmitted on the
wire. -/
def byteBits (b : Nat) : List Bool :=
  (List.range 8).map b.testBit

/-- CRC8 state after feeding a list of bits. -/
def crcBits (c : Nat) (l : List Bool) : Nat :=
  l.foldl crc8Bit c

/-- Modelled from the spec: the CRC8 byte step, feeding the eight bits least
significant first. -/
def crc8Byte (c b : Nat) : Nat :=
  crcBits c (byteBits b)

/-- Modelled from the spec: crc8 over a byte sequence, starting from state
zero (spec section 4.3, not in src). -/
def crc8 (bs : List Nat) : Nat :=
  bs.foldl crc8Byte 0

/-- Modelled from the spec: a frame is declared valid when the CRC8 of all
bytes but the last equals the last byte (spec section 8). -/
def frameValid (bs : List Nat) : Bool :=
  match bs.getLast? with
  | none => false
  | some c => crc8 bs.dropLast == c

/-- Modelled from the spec: the error kinds of section 7. -/
inductive OneWireError where
  | noPresencePulse
  | busError
  | crcMismatch
  | unexpectedDevice
  deriving DecidableEq

/-- Modelled from the spec: the four DS18B20 conversion resolutions. -/
inductive Resolution where
  | bits9
  | bits10
  | bits11
  | bits12
  deriving DecidableEq

/-- Modelled from the spec: worst-case conversion time per resolution
(94ms/188ms/375ms/750ms, spec section 3). -/
def measurementTimeMs : Resolution → Nat
  | .bits9 => 94
  | .bits10 => 188
  | .bits11 => 375
  | .bits12 => 750

/-- The conversion wait get_temperature performs after starting a
simultaneous measurement (src/main.rs line 28): it always waits the 12-bit
worst case, whatever resolutions the devices on the bus are configured
with. -/
def getTempConversionWaitMs (_ : List Resolution) : Nat :=
  measurementTimeMs Resolution.bits12

/-- Modelled from the spec: how many low temperature bits are undefined at
each resolution and must be masked before scaling (spec section 4.4). -/
def resolutionMaskBits : Resolution → Nat
  | .bits9 => 3
  | .bits10 => 2
  | .bits11 => 1
  | .bits12 => 0

/-- Clear the undefined low bits of a raw 16-bit reading for the given
resolution. -/
def maskRaw (res : Resolution) (raw : Nat) : Nat :=
  2 ^ resolutionMaskBits res * (raw / 2 ^ resolutionMaskBits res)

/-- Reinterpret a 16-bit value as a two's-complement signed integer. -/
def toSigned16 (raw : Nat) : Int :=
  if raw < 32768 then (raw : Int) else (raw : Int) - 65536

/-- Modelled from the spec: temperature decoding, raw two's-complement
value divided by 16 after masking the resolution's undefined low bits
(spec section 4.4, not in src). -/
def decodeTemp (res : Resolution) (raw : Nat) : Rat :=
  (toSigned16 (maskRaw res raw) : Rat) / 16

/-- Decoded scratchpad contents as the driver reports them. -/
structure SensorData where
  temperature : Rat
  resolution : Resolution
  alarmHigh : Nat
  alarmLow : Nat
  deriving DecidableEq

/-- Modelled from the spec: the resolution stored in the configuration
byte (two spare bits select among the four resolutions). -/
def resolutionOfConfig (c : Nat) : Resolution :=
  match c / 32 % 4 with
  | 0 => .bits9
  | 1 => .bits10
  | 2 => .bits11
  | _ => .bits12

/-- Modelled from the spec: decode a 9-byte scratchpad image: temperature
in bytes 0-1 least significant first, alarm thresholds in bytes 2-3,
configuration in byte 4. -/
def decodeScratchpad (resp : List Nat) : SensorData :=
  let raw := resp.getD 0 0 + 256 * resp.getD 1 0
  let res := resolutionOfConfig (resp.getD 4 0)
  { temperature := decodeTemp res raw
    resolution := res
    alarmHigh := resp.getD 2 0
    alarmLow := resp.getD 3 0 }

/-- Modelled from the spec: ds18b20 read_data validation (spec section 4.4,
not in src): the 9-byte response is a reading only when the CRC8 of its
first 8 bytes equals its trailing byte; otherwise the read fails with
CrcMismatch and no temperature is produced. -/
def readScratchpad (resp : List Nat) : Except OneWireError SensorData :=
  if crc8 (resp.take 8) == resp.getD 8 0 then .ok (decodeScratchpad resp)
  else .error .crcMismatch

/-- Numeric value of a bit string, least significant bit first. -/
def bitsToNat (l : List Bool) : Nat :=
  l.foldr (fun b acc => (if b then 1 else 0) + 2 * acc) 0

/-- Family code of an address: its low byte, transmitted first. -/
def familyCodeOf (a : List Bool) : Nat :=
  bitsToNat (a.take 8)

/-- The DS18B20 family code. -/
def ds18b20FamilyCode : Nat := 0x28

/-- A device read at the transport level followed by scratchpad
validation, as performed by read_data. -/
def readDevice (rf : List Bool → Except OneWireError (List Nat)) (a : List Bool) :
    Except OneWireError SensorData :=
  match rf a with
  | .error e => .error e
  | .ok resp => readScratchpad resp

/-- Embedding of the enumeration loop of get_temperature (src/main.rs lines
31-48): repeatedly search with the evolving state; skip addresses whose
family code is not the DS18B20 one; read the data of each remaining device,
where a failed read propagates immediately out of the loop.  The second
component records which addresses were actually read. -/
def getTempAux (rf : List Bool → Except OneWireError (List Nat)) :
    Nat → List (List Bool) → Option SearchState →
      Except OneWireError (List (List Bool × Rat)) × List (List Bool)
  | 0, _, _ => (.ok [], [])
  | fuel + 1, bus, st =>
    match deviceSearchStep bus st with
    | none => (.ok [], [])
    | some (addr, st') =>
      if familyCodeOf addr != ds18b20FamilyCode then getTempAux rf fuel bus (some st')
      else
        match readDevice rf addr with
        | .error e => (.error e, [addr])
        | .ok d =>
          let r := getTempAux rf fuel bus (some st')
          (Except.map (fun l => (addr, d.temperature) :: l) r.1, addr :: r.2)

/-- The get_temperature loop run from a fresh search state with enough fuel
for every device on the bus. -/
def getTemperature (bus : List (List Bool)) (rf : List Bool → Except OneWireError (List Nat)) :
    Except OneWireError (List (List Bool × Rat)) × List (List Bool) :=
  getTempAux rf bus.length bus none

/-- The same per-address processing applied to an already-enumerated
address list: skip foreign family codes, read the rest, abort on the first
failed read. -/
def processAddrs (rf : List Bool → Except OneWireError (List Nat)) :
    List (List Bool) → Except OneWireError (List (List Bool × Rat)) × List (List Bool)
  | [] => (.ok [], [])
  | a :: rest =>
    if familyCodeOf a != ds18b20FamilyCode then processAddrs rf rest
    else
      match readDevice rf a with
      | .error e => (.error e, [a])
      | .ok d =>
        let r := processAddrs rf rest
        (Except.map (fun l => (a, d.temperature) :: l) r.1, a :: r.2)

/-- Transport operations visible on the wire for the call-trace model. -/
inductive BusOp where
  | reset
  | writeByte (b : Nat)
  deriving DecidableEq

/-- Modelled from the spec: the reset/presence-detect primitive (spec
section 4.1, not in src).  With no device on the bus no presence pulse
arrives. -/
def resetBus (bus : List (List Bool)) : Except OneWireError Unit :=
  if bus = [] then .error .noPresencePulse else .ok ()

/-- The search ROM command byte. -/
def searchRomCmd : Nat := 0xF0

/-- Modelled from the spec: a search call at the transport level (spec
section 4.2 step 1-2, not in src): issue a reset; a missing presence pulse
is treated as an empty bus, the call succeeds with no result and transmits
no command byte; only after a presence pulse is the search ROM command byte
written and the bit-search run. -/
def searchOp (bus : List (List Bool)) (st : Option SearchState) :
    Except OneWireError (Option (List Bool × SearchState)) × List BusOp :=
  match resetBus bus with
  | .error OneWireError.noPresencePulse => (.ok none, [.reset])
  | .error e => (.error e, [.reset])
  | .ok _ => (.ok (deviceSearchStep bus st), [.reset, .writeByte searchRomCmd])

/-- Modelled from the spec: a device's scratchpad configuration cells and
their EEPROM shadow (spec sections 3 and 4.4, not in src). -/
structure DeviceMem where
  th : Nat
  tl : Nat
  cfg : Nat
  eeTh : Nat
  eeTl : Nat
  eeCfg : Nat
  deriving DecidableEq

/-- Modelled from the spec: write scratchpad, storing both alarm thresholds
and the configuration byte. -/
def setConfig (th tl cfg : Nat) (d : DeviceMem) : DeviceMem :=
  { d with th := th, tl := tl, cfg := cfg }

/-- Modelled from the spec: the configuration triple a scratchpad read
reports. -/
def readConfig (d : DeviceMem) : Nat × Nat × Nat :=
  (d.th, d.tl, d.cfg)

/-- Modelled from the spec: copy scratchpad to EEPROM. -/
def saveToEeprom (d : DeviceMem) : DeviceMem :=
  { d with eeTh := d.th, eeTl := d.tl, eeCfg := d.cfg }

/-- Modelled from the spec: recall EEPROM into the scratchpad. -/
def recallFromEeprom (d : DeviceMem) : DeviceMem :=
  { d with th := d.eeTh, tl := d.eeTl, cfg := d.eeCfg }

/-- Configuration operations test_config can perform on a device. -/
inductive DevOp where
  | readScratch
  | writeScratch (th tl cfg : Nat)
  | copyEeprom
  | recallEeprom
  deriving DecidableEq

/-- Embedding of test_config (src/main.rs lines 52-89): search for a first
device; when none is found return Ok immediately; otherwise read the
initial configuration, write alarm thresholds 18 and 24 keeping the
resolution, read back, copy to EEPROM, recall, and read again.  Returns the
result, the operations performed, and the final device memory. -/
def testConfig (bus : List (List Bool)) (dev : DeviceMem) :
    Except OneWireError Unit × List DevOp × DeviceMem :=
  match deviceSearchStep bus none with
  | none => (.ok (), [], dev)
  | some _ =>
    let resolution := dev.cfg
    let d1 := setConfig 18 24 resolution dev
    let d2 := saveToEeprom d1
    let d3 := recallFromEeprom d2
    (.ok (),
      [.readScratch, .writeScratch 18 24 resolution, .readScratch,
        .copyEeprom, .recallEeprom, .readScratch],
      d3)

/-- The flags of a search state describe exactly the depths where the found
address took a 0-branch while some device on the bus continues the same
prefix with a 1. -/
def flagsGood (s : List (List Bool)) (m f : List Bool) : Prop :=
  ∀ j : Nat, f.getD j false = true ↔
    (m.getD j false = false ∧ ∃ a ∈ s, a.take j = m.take j ∧ a.getD j false = true)

/-- Invariant threaded through successive search calls. -/
def StateInv (bus : List (List Bool)) (st : SearchState) : Prop :=
  st.address ∈ bus ∧ st.address.length = 64 ∧ st.flags.length = 64 ∧
    flagsGood bus st.address st.flags

/-- The DS18B20 family code as address bits, least significant first. -/
def famBits : List Bool :=
  [false, false, false, true, false, true, false, false]

/-- Demo address sharing the family-code prefix with the others. -/
def addrA : List Bool := famBits ++ List.replicate 56 false

/-- Demo address forcing a collision with addrA at depth 8. -/
def addrB : List Bool := famBits ++ true :: List.replicate 55 false

/-- Demo address forcing a collision with addrA at depth 9. -/
def addrC : List Bool := famBits ++ false :: true :: List.replicate 54 false

/-- A three-device demo bus whose addresses share prefix bits. -/
def demoBus : List (List Bool) := [addrA, addrB, addrC]

/-- A foreign-family demo address (family code 0x01). -/
def addrX : List Bool :=
  (true :: List.replicate 7 false) ++ List.replicate 56 false

/-- First eight bytes of a demo scratchpad: raw temperature 0x0191, alarms
18 and 24, 12-bit configuration. -/
def demoFrame : List Nat := [0x91, 0x01, 18, 24, 0x7F, 0xFF, 0x00, 0x10]

/-- The demo scratchpad completed with its correct CRC byte. -/
def demoResp : List Nat := demoFrame ++ [crc8 demoFrame]

/-- A transport that answers every read with the valid demo scratchpad. -/
def demoReadOk : List Bool → Except OneWireError (List Nat) :=
  fun _ => .ok demoResp

/-- A transport whose every read fails at the transport level. -/
def demoReadBad : List Bool → Except OneWireError (List Nat) :=
  fun _ => .error .crcMismatch

/-- A transport that answers addrA with the valid demo scratchpad and fails
every other read. -/
def demoReadAB : List Bool → Except OneWireError (List Nat) :=
  fun a => if a = addrA then .ok demoResp else .error .crcMismatch

/-- C3: writing alarm thresholds 18 and 24 together with a resolution to a
device's scratchpad and reading it back yields the same three values; after
a copy to EEPROM followed by a recall and a read, the scratchpad equals the
values last copied, even when different values were written to the
scratchpad after the copy and before the recall, and never those later
values when they differ from the copied ones. -/
theorem config_roundtrip (d : DeviceMem) (r a b c : Nat) :
    readConfig (setConfig 18 24 r d) = (18, 24, r) ∧
    readConfig (recallFromEeprom (setConfig a b c (saveToEeprom (setConfig 18 24 r d)))) =
      (18, 24, r) ∧
    ((a, b, c) ≠ (18, 24, r) →
      readConfig (recallFromEeprom (setConfig a b c (saveToEeprom (setConfig 18 24 r d)))) ≠
        (a, b, c)) := by
  refine ⟨rfl, rfl, ?_⟩
  intro h hc
  exact h hc.symm

/-- Witness for C3 at a concrete device: thresholds 18 and 24 with
configuration 0x7F survive the EEPROM round trip, and the intervening
scratchpad write of (1, 2, 3) is not what the final read returns. -/
theorem config_roundtrip_witness :
    readConfig (setConfig 18 24 0x7F ⟨0, 0, 0, 0, 0, 0⟩) = (18, 24, 0x7F) ∧
    readConfig (recallFromEeprom (setConfig 1 2 3 (saveToEeprom
      (setConfig 18 24 0x7F ⟨0, 0, 0, 0, 0, 0⟩)))) = (18, 24, 0x7F) ∧
    readConfig (recallFromEeprom (setConfig 1 2 3 (saveToEeprom
      (setConfig 18 24 0x7F ⟨0, 0, 0, 0, 0, 0⟩)))) ≠ (1, 2, 3) := by
  have h := config_roundtrip ⟨0, 0, 0, 0, 0, 0⟩ 0x7F 1 2 3
  exact ⟨h.1, h.2.1, h.2.2 (by decide)⟩

/-- C5: temperature decoding at 12-bit resolution divides the raw 16-bit
two's-complement value by 16, so raw 0x0191 decodes to 25.0625 and raw
0xFF5E decodes to -10.125; at every resolution the undefined low bits are
masked before scaling, so decoding is insensitive to them. -/
theorem temperature_decode (res : Resolution) (raw : Nat) :
    decodeTemp .bits12 0x0191 = (25.0625 : Rat) ∧
    decodeTemp .bits12 0xFF5E = (-10.125 : Rat) ∧
    decodeTemp .bits12 raw = (toSigned16 raw : Rat) / 16 ∧
    decodeTemp res raw = decodeTemp res (maskRaw res raw) := by
  have hmask : ∀ r : Resolution, ∀ x : Nat, maskRaw r (maskRaw r x) = maskRaw r x := by
    intro r x
    unfold maskRaw
    rw [Nat.mul_div_cancel_left _ (Nat.pos_pow_of_pos _ (by norm_num))]
  refine ⟨by norm_num [decodeTemp, maskRaw, resolutionMaskBits, toSigned16], by
    norm_num [decodeTemp, maskRaw, resolutionMaskBits, toSigned16], ?_, ?_⟩
  · simp [decodeTemp, maskRaw, resolutionMaskBits]
  · unfold decodeTemp
    rw [hmask]

/-- C8: after starting a simultaneous conversion, get_temperature always
waits the worst-case 12-bit delay of 750ms before reading any result,
whatever resolutions the devices are configured with, and that delay is at
least the resolution-dependent conversion time of every resolution. -/
theorem conversion_wait_worst_case (rs : List Resolution) :
    getTempConversionWaitMs rs = 750 ∧
    getTempConversionWaitMs rs = measurementTimeMs .bits12 ∧
    ∀ r : Resolution, measurementTimeMs r ≤ getTempConversionWaitMs rs := by
  refine ⟨rfl, rfl, ?_⟩
  intro r
  cases r <;> norm_num [measurementTimeMs, getTempConversionWaitMs]

/-- C6: a reset on a bus with no responding device yields NoPresencePulse,
the search that issued it treats this as an empty bus and succeeds with an
empty result rather than failing, and its transport trace consists of the
reset alone, so no command byte is transmitted after it. -/
theorem reset_no_presence (st : Option SearchState) :
    resetBus [] = .error .noPresencePulse ∧
    (searchOp [] st).1 = .ok none ∧
    (searchOp [] st).2 = [BusOp.reset] := by
  exact ⟨rfl, rfl, rfl⟩

/-- C10: when device enumeration yields no device, test_config returns Ok
while performing no scratchpad write, no copy to EEPROM and no recall, and
the device memory is left unchanged. -/
theorem empty_bus_config_untouched (bus : List (List Bool)) (dev : DeviceMem)
    (h : deviceSearchStep bus none = none) :
    testConfig bus dev = (.ok (), [], dev) := by
  unfold testConfig
  rw [h]

/-- Witness for C10: on the empty bus the enumeration yields no device and
test_config leaves the device memory alone. -/
theorem empty_bus_config_untouched_witness :
    testConfig [] ⟨0, 1, 2, 3, 4, 5⟩ = (.ok (), [], ⟨0, 1, 2, 3, 4, 5⟩) :=
  empty_bus_config_untouched [] ⟨0, 1, 2, 3, 4, 5⟩ rfl

set_option maxRecDepth 16384

theorem crc8Bit_lt_256 : ∀ c : Fin 256, ∀ b : Bool, crc8Bit c.val b < 256 := by decide

theorem crc8BitInv_leftInv : ∀ c : Fin 256, ∀ b : Bool, crc8BitInv (crc8Bit c.val b) b = c.val := by
  decide

theorem crc8Bit_flip_ne : ∀ c : Fin 256, ∀ b : Bool, crc8Bit c.val (!b) ≠ crc8Bit c.val b := by
  decide

theorem crc8Bit_inj {c1 c2 : Nat} (h1 : c1 < 256) (h2 : c2 < 256) (b : Bool)
    (h : crc8Bit c1 b = crc8Bit c2 b) : c1 = c2 := by
  have e1 := crc8BitInv_leftInv ⟨c1, h1⟩ b
  have e2 := crc8BitInv_leftInv ⟨c2, h2⟩ b
  simp only [Fin.val_mk] at e1 e2
  rw [← e1, ← e2, h]

theorem crcBits_cons (c : Nat) (b : Bool) (l : List Bool) :
    crcBits c (b :: l) = crcBits (crc8Bit c b) l := rfl

theorem crcBits_lt_256 (l : List Bool) : ∀ c : Nat, c < 256 → crcBits c l < 256 := by
  induction l with
  | nil => intro c h; exact h
  | cons b l ih =>
    intro c h
    rw [crcBits_cons]
    exact ih _ (crc8Bit_lt_256 ⟨c, h⟩ b)

theorem crcBits_inj (l : List Bool) : ∀ c1 c2 : Nat, c1 < 256 → c2 < 256 → c1 ≠ c2 →
    crcBits c1 l ≠ crcBits c2 l := by
  induction l with
  | nil => intro c1 c2 _ _ hne; exact hne
  | cons b l ih =>
    intro c1 c2 h1 h2 hne
    rw [crcBits_cons, crcBits_cons]
    exact ih _ _ (crc8Bit_lt_256 ⟨c1, h1⟩ b) (crc8Bit_lt_256 ⟨c2, h2⟩ b)
      (fun h => hne (crc8Bit_inj h1 h2 b h))

theorem crcBits_set_flip (l : List Bool) : ∀ i c, c < 256 → i < l.length →
    crcBits c (l.set i (!(l.getD i false))) ≠ crcBits c l := by
  induction l with
  | nil => intro i c _ h; simp at h
  | cons b l ih =>
    intro i c hc hi
    cases i with
    | zero =>
      simp only [List.set_cons_zero, List.getD_cons_zero, crcBits_cons]
      exact crcBits_inj l _ _ (crc8Bit_lt_256 ⟨c, hc⟩ (!b)) (crc8Bit_lt_256 ⟨c, hc⟩ b)
        (crc8Bit_flip_ne ⟨c, hc⟩ b)
    | succ i =>
      simp only [List.set_cons_succ, List.getD_cons_succ, crcBits_cons]
      exact ih i (crc8Bit c b) (crc8Bit_lt_256 ⟨c, hc⟩ b) (by simpa using hi)

theorem byteBits_length (b : Nat) : (byteBits b).length = 8 := by simp [byteBits]

theorem byteBits_getD (b : Nat) (k : Nat) (hk : k < 8) :
    (byteBits b).getD k false = b.testBit k := by
  rw [List.getD_eq_getElem?_getD]
  simp [byteBits, List.getElem?_eq_getElem, hk]

theorem byteBits_xor_pow (b k : Nat) (hk : k < 8) :
    byteBits (b ^^^ 2 ^ k) = (byteBits b).set k (!(byteBits b).getD k false) := by
  apply List.ext_getElem
  · simp [byteBits]
  intro i h1 h2
  have hi : i < 8 := by simpa [byteBits] using h1
  simp only [List.getElem_set]
  by_cases hki : k = i
  · subst hki
    rw [if_pos rfl, byteBits_getD b k hk]
    simp only [byteBits, List.getElem_map, List.getElem_range]
    rw [Nat.testBit_xor, Nat.testBit_two_pow_self]
    cases b.testBit k <;> rfl
  · rw [if_neg hki]
    simp only [byteBits, List.getElem_map, List.getElem_range]
    rw [Nat.testBit_xor, Nat.testBit_two_pow_of_ne hki]
    cases b.testBit i <;> rfl

theorem crc8Byte_lt_256 (c : Nat) (hc : c < 256) (b : Nat) : crc8Byte c b < 256 :=
  crcBits_lt_256 _ _ hc

theorem crc8Byte_inj {c1 c2 : Nat} (h1 : c1 < 256) (h2 : c2 < 256) (b : Nat)
    (hne : c1 ≠ c2) : crc8Byte c1 b ≠ crc8Byte c2 b :=
  crcBits_inj _ _ _ h1 h2 hne

theorem crc8Byte_flip (c : Nat) (hc : c < 256) (b k : Nat) (hk : k < 8) :
    crc8Byte c (b ^^^ 2 ^ k) ≠ crc8Byte c b := by
  unfold crc8Byte
  rw [byteBits_xor_pow b k hk]
  exact crcBits_set_flip _ k c hc (byteBits_length b ▸ hk)

theorem foldl_crc8Byte_inj (s : List Nat) : ∀ c1 c2 : Nat, c1 < 256 → c2 < 256 → c1 ≠ c2 →
    s.foldl crc8Byte c1 ≠ s.foldl crc8Byte c2 := by
  induction s with
  | nil => intro c1 c2 _ _ hne; exact hne
  | cons x s ih =>
    intro c1 c2 h1 h2 hne
    simp only [List.foldl_cons]
    exact ih _ _ (crc8Byte_lt_256 _ h1 x) (crc8Byte_lt_256 _ h2 x) (crc8Byte_inj h1 h2 x hne)

theorem crc8_set_flip_aux (bs : List Nat) : ∀ i c k, c < 256 → i < bs.length → k < 8 →
    (bs.set i (bs.getD i 0 ^^^ 2 ^ k)).foldl crc8Byte c ≠ bs.foldl crc8Byte c := by
  induction bs with
  | nil => intro i c k _ h _; simp at h
  | cons x bs ih =>
    intro i c k hc hi hk
    cases i with
    | zero =>
      simp only [List.set_cons_zero, List.getD_cons_zero, List.foldl_cons]
      exact foldl_crc8Byte_inj bs _ _ (crc8Byte_lt_256 _ hc _) (crc8Byte_lt_256 _ hc _)
        (crc8Byte_flip c hc x k hk)
    | succ i =>
      simp only [List.set_cons_succ, List.getD_cons_succ, List.foldl_cons]
      exact ih i (crc8Byte c x) k (crc8Byte_lt_256 _ hc _) (by simpa using hi) hk

theorem crc8_single_bit (bs : List Nat) (i k : Nat) (hi : i < bs.length) (hk : k < 8) :
    crc8 (bs.set i (bs.getD i 0 ^^^ 2 ^ k)) ≠ crc8 bs :=
  crc8_set_flip_aux bs i 0 k (by norm_num) hi hk

theorem getD_set_ne (l : List Nat) (i j v : Nat) (h : i ≠ j) :
    (l.set i v).getD j 0 = l.getD j 0 := by
  rw [List.getD_eq_getElem?_getD, List.getD_eq_getElem?_getD, List.getElem?_set_ne h]

theorem getD_take_of_lt (l : List Nat) (i n : Nat) (h : i < n) :
    (l.take n).getD i 0 = l.getD i 0 := by
  rw [List.getD_eq_getElem?_getD, List.getD_eq_getElem?_getD, List.getElem?_take_of_lt h]

theorem xor_pow_ne (n k : Nat) : n ^^^ 2 ^ k ≠ n := by
  intro h
  have h2 : n ^^^ (n ^^^ 2 ^ k) = n ^^^ n := by rw [h]
  rw [← Nat.xor_assoc, Nat.xor_self, Nat.zero_xor] at h2
  exact pow_ne_zero k (by norm_num) h2

theorem getD_set_self (l : List Nat) (i v : Nat) (h : i < l.length) :
    (l.set i v).getD i 0 = v := by
  rw [List.getD_eq_getElem?_getD, List.getElem?_set_self h]
  rfl

/-- C2: crc8 of all bytes but the last equals the last byte exactly when the
frame is declared valid, and flipping any single bit of any byte of a byte
sequence changes its computed CRC8 value, giving single-bit-error detection
for the iterative LSB-first CRC with the 0x8C taps of x^8+x^5+x^4+1. -/
theorem crc8_validator (bs : List Nat) :
    (∀ c : Nat, bs.getLast? = some c → (crc8 bs.dropLast = c ↔ frameValid bs = true)) ∧
    (∀ i k : Nat, i < bs.length → k < 8 →
      crc8 (bs.set i (bs.getD i 0 ^^^ 2 ^ k)) ≠ crc8 bs) := by
  constructor
  · intro c hc
    unfold frameValid
    rw [hc]
    simp
  · intro i k hi hk
    exact crc8_single_bit bs i k hi hk

/-- Witness for C2 at the demo scratchpad: the frame extended with its own
CRC validates, and flipping bit 3 of its first byte changes the CRC. -/
theorem crc8_validator_witness :
    (crc8 demoResp.dropLast = crc8 demoFrame ↔ frameValid demoResp = true) ∧
    crc8 (demoResp.set 0 (demoResp.getD 0 0 ^^^ 2 ^ 3)) ≠ crc8 demoResp := by
  have h := crc8_validator demoResp
  exact ⟨h.1 (crc8 demoFrame) (by decide), h.2 0 3 (by decide) (by decide)⟩

/-- C7: a 9-byte scratchpad response whose trailing byte differs from the
CRC8 of its first 8 bytes is rejected by the data read with CrcMismatch, so
no temperature is returned for it; in particular a response obtained from a
CRC-valid one by flipping any single bit of any of its 9 bytes is
rejected. -/
theorem scratchpad_crc_guard (resp : List Nat) :
    (resp.length = 9 → crc8 (resp.take 8) ≠ resp.getD 8 0 →
      readScratchpad resp = .error .crcMismatch) ∧
    (∀ d : SensorData, resp.length = 9 → readScratchpad resp = .ok d →
      ∀ i k : Nat, i < 9 → k < 8 →
        readScratchpad (resp.set i (resp.getD i 0 ^^^ 2 ^ k)) = .error .crcMismatch) := by
  have herr : ∀ l : List Nat, crc8 (l.take 8) ≠ l.getD 8 0 →
      readScratchpad l = .error .crcMismatch := by
    intro l hne
    unfold readScratchpad
    rw [if_neg (by simpa using hne)]
  constructor
  · intro _ hne
    exact herr resp hne
  · intro d hlen hok i k hi hk
    have hval : crc8 (resp.take 8) = resp.getD 8 0 := by
      by_contra hne
      rw [herr resp hne] at hok
      exact Except.noConfusion hok
    apply herr
    by_cases hi8 : i < 8
    · rw [List.set_take, getD_set_ne _ _ _ _ (by omega)]
      have hgd : resp.getD i 0 = (resp.take 8).getD i 0 := (getD_take_of_lt resp i 8 hi8).symm
      rw [hgd]
      intro hbad
      exact crc8_single_bit (resp.take 8) i k
        (by rw [List.length_take, hlen]; omega) hk (hbad.trans hval.symm)
    · have h8 : i = 8 := by omega
      subst h8
      rw [List.set_take, List.set_eq_of_length_le (by rw [List.length_take, hlen]; omega),
        getD_set_self resp 8 _ (by omega), hval]
      exact (xor_pow_ne (resp.getD 8 0) k).symm

/-- Witness for C7: the demo response is accepted, and corrupting bit 0 of
its byte 2 makes the read fail with CrcMismatch. -/
theorem scratchpad_crc_guard_witness :
    readScratchpad (demoResp.set 2 (demoResp.getD 2 0 ^^^ 2 ^ 0)) =
      .error .crcMismatch :=
  (scratchpad_crc_guard demoResp).2 (decodeScratchpad demoResp) (by decide) (by rfl)
    2 0 (by decide) (by decide)

theorem lexLt_irrefl : ∀ a : List Bool, lexLt a a = false := by
  intro a
  induction a with
  | nil => rfl
  | cons a0 as ih => simp [lexLt, ih]

theorem lexLt_asymm : ∀ a b : List Bool, lexLt a b = true → lexLt b a = false := by
  intro a
  induction a with
  | nil => intro b h; simp [lexLt] at h
  | cons a0 as ih =>
    intro b h
    cases b with
    | nil => simp [lexLt]
    | cons b0 bs =>
      simp only [lexLt, Bool.or_eq_true, Bool.and_eq_true, beq_iff_eq] at h ⊢
      cases a0 <;> cases b0 <;> simp_all

theorem lexLt_trans : ∀ a b c : List Bool, lexLt a b = true → lexLt b c = true →
    lexLt a c = true := by
  intro a
  induction a with
  | nil => intro b c h _; simp [lexLt] at h
  | cons a0 as ih =>
    intro b c h1 h2
    cases b with
    | nil => simp [lexLt] at h1
    | cons b0 bs =>
      cases c with
      | nil => simp [lexLt] at h2
      | cons c0 cs =>
        simp only [lexLt, Bool.or_eq_true, Bool.and_eq_true, beq_iff_eq] at h1 h2 ⊢
        cases a0 <;> cases b0 <;> cases c0 <;> simp_all
        all_goals exact ih bs cs h1 h2

theorem lexLt_total : ∀ a b : List Bool, a.length = b.length → a ≠ b →
    lexLt a b = true ∨ lexLt b a = true := by
  intro a
  induction a with
  | nil =>
    intro b hl hne
    cases b with
    | nil => exact absurd rfl hne
    | cons b0 bs => simp at hl
  | cons a0 as ih =>
    intro b hl hne
    cases b with
    | nil => simp at hl
    | cons b0 bs =>
      simp only [List.length_cons, Nat.succ.injEq] at hl
      by_cases h0 : a0 = b0
      · subst h0
        have hne' : as ≠ bs := fun h => hne (by rw [h])
        rcases ih bs hl hne' with h | h
        · left; simp [lexLt, h]
        · right; simp [lexLt, h]
      · cases a0 <;> cases b0 <;> simp_all [lexLt]

theorem mem_splitHeads (s : List (List Bool)) (b : Bool) (x : List Bool) :
    x ∈ splitHeads s b ↔ b :: x ∈ s := by
  unfold splitHeads
  simp only [List.mem_map, List.mem_filter, beq_iff_eq]
  constructor
  · rintro ⟨a, ⟨ha, hh⟩, ht⟩
    cases a with
    | nil => simp at hh
    | cons a0 as =>
      simp only [List.head?_cons, Option.some.injEq] at hh
      simp only [List.tail_cons] at ht
      rw [← hh, ← ht]
      exact ha
  · intro h
    exact ⟨b :: x, ⟨h, rfl⟩, rfl⟩

theorem splitHeads_elem_length (s : List (List Bool)) (b : Bool) (n : Nat)
    (h : ∀ a ∈ s, a.length = n + 1) : ∀ x ∈ splitHeads s b, x.length = n := by
  intro x hx
  have hlen := h _ ((mem_splitHeads s b x).mp hx)
  simpa using hlen

theorem flagsGood_cons (s : List (List Bool)) (m0 f0 : Bool) (m' f' : List Bool)
    (h : flagsGood (splitHeads s m0) m' f')
    (h0 : f0 = true ↔ (m0 = false ∧ splitHeads s true ≠ [])) :
    flagsGood s (m0 :: m') (f0 :: f') := by
  intro j
  cases j with
  | zero =>
    simp only [List.getD_cons_zero, List.take_zero]
    rw [h0]
    constructor
    · rintro ⟨hm0, hne⟩
      refine ⟨hm0, ?_⟩
      rcases List.exists_mem_of_ne_nil _ hne with ⟨x, hx⟩
      exact ⟨true :: x, (mem_splitHeads s true x).mp hx, by simp, rfl⟩
    · rintro ⟨hm0, a, ha, _, hga⟩
      refine ⟨hm0, ?_⟩
      cases a with
      | nil => simp at hga
      | cons a0 as =>
        simp only [List.getD_cons_zero] at hga
        subst hga
        exact List.ne_nil_of_mem ((mem_splitHeads s true as).mpr ha)
  | succ j =>
    simp only [List.getD_cons_succ, List.take_succ_cons]
    rw [h j]
    constructor
    · rintro ⟨hm, a', ha', ht, hg⟩
      exact ⟨hm, m0 :: a', (mem_splitHeads s m0 a').mp ha',
        by simp only [List.take_succ_cons, ht], by simpa using hg⟩
    · rintro ⟨hm, a, ha, ht, hg⟩
      cases a with
      | nil => simp at hg
      | cons a0 as =>
        simp only [List.take_succ_cons, List.cons.injEq] at ht
        rw [ht.1] at ha
        exact ⟨hm, as, (mem_splitHeads s m0 as).mpr ha, ht.2, by simpa using hg⟩

theorem lexLt_iff : ∀ a b : List Bool, a.length = b.length →
    (lexLt a b = true ↔
      ∃ j : Nat, a.take j = b.take j ∧ a.getD j false = false ∧ b.getD j false = true) := by
  intro a
  induction a with
  | nil =>
    intro b hl
    cases b with
    | cons b0 bs => simp at hl
    | nil =>
      constructor
      · intro h; simp [lexLt] at h
      · rintro ⟨j, _, _, hg⟩; simp at hg
  | cons a0 as ih =>
    intro b hl
    cases b with
    | nil => simp at hl
    | cons b0 bs =>
      simp only [List.length_cons, Nat.succ.injEq] at hl
      constructor
      · intro h
        simp only [lexLt, Bool.or_eq_true, Bool.and_eq_true, beq_iff_eq,
          Bool.not_eq_eq_eq_not, Bool.not_true] at h
        rcases h with ⟨ha0, hb0⟩ | ⟨heq, hrec⟩
        · refine ⟨0, by simp, by simpa using ha0, by simpa using hb0⟩
        · rcases (ih bs hl).mp hrec with ⟨j, ht, hga, hgb⟩
          exact ⟨j + 1, by simp [List.take_succ_cons, heq, ht], by simpa using hga,
            by simpa using hgb⟩
      · rintro ⟨j, ht, hga, hgb⟩
        cases j with
        | zero =>
          simp only [List.getD_cons_zero] at hga hgb
          simp [lexLt, hga, hgb]
        | succ j =>
          simp only [List.take_succ_cons, List.cons.injEq] at ht
          simp only [List.getD_cons_succ] at hga hgb
          have hrec := (ih bs hl).mpr ⟨j, ht.2, hga, hgb⟩
          simp [lexLt, ht.1, hrec]

theorem searchRun_free : ∀ (plan : List (Option Bool)) (s : List (List Bool)),
    (∀ x ∈ plan, x = none) → s ≠ [] → (∀ a ∈ s, a.length = plan.length) →
    ∃ m f, searchRun s plan = some (m, f) ∧ m ∈ s ∧
      (∀ b ∈ s, lexLt b m = false) ∧ flagsGood s m f ∧
      m.length = plan.length ∧ f.length = plan.length := by
  intro plan
  induction plan with
  | nil =>
    intro s _ hne hlen
    refine ⟨[], [], ?_, ?_, ?_, ?_, rfl, rfl⟩
    · unfold searchRun
      rw [if_neg hne]
    · rcases List.exists_mem_of_ne_nil _ hne with ⟨a, ha⟩
      have ha0 : a = [] := List.length_eq_zero.mp (hlen a ha)
      rw [← ha0]; exact ha
    · intro b hb
      have hb0 : b = [] := List.length_eq_zero.mp (hlen b hb)
      subst hb0; rfl
    · intro j
      constructor
      · intro h; simp at h
      · rintro ⟨_, a, ha, _, hg⟩
        have ha0 : a = [] := List.length_eq_zero.mp (hlen a ha)
        subst ha0; simp at hg
  | cons p plan ih =>
    intro s hnone hne hlen
    have hp : p = none := hnone p (by simp)
    have hlen' : ∀ a ∈ s, a.length = plan.length + 1 := by
      intro a ha; simpa [Nat.succ_eq_add_one] using hlen a ha
    have hsplit : ¬(splitHeads s false = [] ∧ splitHeads s true = []) := by
      rintro ⟨h0, h1⟩
      rcases List.exists_mem_of_ne_nil _ hne with ⟨a, ha⟩
      cases a with
      | nil => simpa using hlen' [] ha
      | cons a0 as =>
        cases a0
        · exact List.ne_nil_of_mem ((mem_splitHeads s false as).mpr ha) h0
        · exact List.ne_nil_of_mem ((mem_splitHeads s true as).mpr ha) h1
    by_cases h0 : splitHeads s false = []
    · have h1 : splitHeads s true ≠ [] := fun h => hsplit ⟨h0, h⟩
      rcases ih (splitHeads s true) (fun x hx => hnone x (by simp [hx]))
        h1 (splitHeads_elem_length s true plan.length hlen') with
        ⟨m', f', heq, hmem, hmin, hfg, hml, hfl⟩
      refine ⟨true :: m', false :: f', ?_, (mem_splitHeads s true m').mp hmem, ?_, ?_,
        by simp [hml], by simp [hfl]⟩
      · unfold searchRun
        rw [if_pos h0, if_neg h1, heq]
        rfl
      · intro b hb
        cases b with
        | nil => simpa using hlen' [] hb
        | cons b0 bs =>
          cases b0
          · exact absurd ((mem_splitHeads s false bs).mpr hb) (by simp [h0])
          · have hr := hmin bs ((mem_splitHeads s true bs).mpr hb)
            simp [lexLt, hr]
      · exact flagsGood_cons s true false m' f' hfg (by simp)
    · by_cases h1 : splitHeads s true = []
      · rcases ih (splitHeads s false) (fun x hx => hnone x (by simp [hx]))
          h0 (splitHeads_elem_length s false plan.length hlen') with
          ⟨m', f', heq, hmem, hmin, hfg, hml, hfl⟩
        refine ⟨false :: m', false :: f', ?_, (mem_splitHeads s false m').mp hmem, ?_, ?_,
          by simp [hml], by simp [hfl]⟩
        · unfold searchRun
          rw [if_neg h0, if_pos h1, heq]
          rfl
        · intro b hb
          cases b with
          | nil => simpa using hlen' [] hb
          | cons b0 bs =>
            cases b0
            · have hr := hmin bs ((mem_splitHeads s false bs).mpr hb)
              simp [lexLt, hr]
            · simp [lexLt]
        · exact flagsGood_cons s false false m' f' hfg (by simp [h1])
      · rcases ih (splitHeads s false) (fun x hx => hnone x (by simp [hx]))
          h0 (splitHeads_elem_length s false plan.length hlen') with
          ⟨m', f', heq, hmem, hmin, hfg, hml, hfl⟩
        refine ⟨false :: m', true :: f', ?_, (mem_splitHeads s false m').mp hmem, ?_, ?_,
          by simp [hml], by simp [hfl]⟩
        · unfold searchRun
          rw [if_neg h0, if_neg h1]
          subst hp
          simp only [Option.getD_none, Bool.not_false]
          rw [if_neg (by simp), heq]
          rfl
        · intro b hb
          cases b with
          | nil => simpa using hlen' [] hb
          | cons b0 bs =>
            cases b0
            · have hr := hmin bs ((mem_splitHeads s false bs).mpr hb)
              simp [lexLt, hr]
            · simp [lexLt]
        · exact flagsGood_cons s false true m' f' hfg (by simp [h1])

theorem searchRun_resume : ∀ (qs : List Bool) (s : List (List Bool)) (rest : List (Option Bool)),
    (∀ x ∈ rest, x = none) → (∀ a ∈ s, a.length = qs.length + rest.length) →
    (∃ a ∈ s, leadsWith qs a = true) →
    ∃ m f, searchRun s (qs.map some ++ rest) = some (m, f) ∧ m ∈ s ∧
      leadsWith qs m = true ∧
      (∀ b ∈ s, leadsWith qs b = true → lexLt b m = false) ∧ flagsGood s m f ∧
      m.length = qs.length + rest.length ∧ f.length = qs.length + rest.length := by
  intro qs
  induction qs with
  | nil =>
    intro s rest hrest hlen hex
    have hne : s ≠ [] := by
      rcases hex with ⟨a, ha, _⟩
      exact List.ne_nil_of_mem ha
    rcases searchRun_free rest s hrest hne (by simpa using hlen) with
      ⟨m, f, heq, hmem, hmin, hfg, hml, hfl⟩
    exact ⟨m, f, by simpa using heq, hmem, rfl, fun b hb _ => hmin b hb, hfg,
      by simpa using hml, by simpa using hfl⟩
  | cons q qs ih =>
    intro s rest hrest hlen hex
    rcases hex with ⟨a, ha, hla⟩
    cases a with
    | nil => simp [leadsWith] at hla
    | cons a0 as =>
      simp only [leadsWith, Bool.and_eq_true, beq_iff_eq] at hla
      obtain ⟨haq, hlas⟩ := hla
      rw [← haq] at ha
      have hq : as ∈ splitHeads s q := (mem_splitHeads s q as).mpr ha
      have hqne : splitHeads s q ≠ [] := List.ne_nil_of_mem hq
      have hlen1 : ∀ a' ∈ s, a'.length = (qs.length + rest.length) + 1 := by
        intro a' ha'
        have hx := hlen a' ha'
        simp only [List.length_cons] at hx
        omega
      have hlens := splitHeads_elem_length s q (qs.length + rest.length) hlen1
      rcases ih (splitHeads s q) rest hrest hlens ⟨as, hq, hlas⟩ with
        ⟨m', f', heq, hmem, hlw, hmin, hfg, hml, hfl⟩
      have hmemS : q :: m' ∈ s := (mem_splitHeads s q m').mp hmem
      have hlwS : leadsWith (q :: qs) (q :: m') = true := by
        simp [leadsWith, hlw]
      have hminS : ∀ b ∈ s, leadsWith (q :: qs) b = true → lexLt b (q :: m') = false := by
        intro b hb hlwb
        cases b with
        | nil => simp [leadsWith] at hlwb
        | cons b0 bs =>
          simp only [leadsWith, Bool.and_eq_true, beq_iff_eq] at hlwb
          obtain ⟨hbq, hlbs⟩ := hlwb
          rw [← hbq] at hb
          have hr := hmin bs ((mem_splitHeads s q bs).mpr hb) hlbs
          rw [← hbq]
          cases q <;> simp [lexLt, hr]
      have hmlS : (q :: m').length = (q :: qs).length + rest.length := by
        simp only [List.length_cons, hml]
        omega
      simp only [List.map_cons, List.cons_append]
      cases q with
      | false =>
        by_cases h1 : splitHeads s true = []
        · refine ⟨false :: m', false :: f', ?_, hmemS, hlwS, hminS,
            flagsGood_cons s false false m' f' hfg (by simp [h1]), hmlS, ?_⟩
          · unfold searchRun
            rw [if_neg hqne, if_pos h1, heq]
            rfl
          · simp only [List.length_cons, hfl]
            omega
        · refine ⟨false :: m', true :: f', ?_, hmemS, hlwS, hminS,
            flagsGood_cons s false true m' f' hfg (by simp [h1]), hmlS, ?_⟩
          · unfold searchRun
            rw [if_neg hqne, if_neg h1]
            simp only [Option.getD_some, Bool.not_false]
            rw [if_neg (by simp), heq]
            rfl
          · simp only [List.length_cons, hfl]
            omega
      | true =>
        by_cases h0 : splitHeads s false = []
        · refine ⟨true :: m', false :: f', ?_, hmemS, hlwS, hminS,
            flagsGood_cons s true false m' f' hfg (by simp), hmlS, ?_⟩
          · unfold searchRun
            rw [if_pos h0, if_neg hqne, heq]
            rfl
          · simp only [List.length_cons, hfl]
            omega
        · refine ⟨true :: m', false :: f', ?_, hmemS, hlwS, hminS,
            flagsGood_cons s true false m' f' hfg (by simp), hmlS, ?_⟩
          · unfold searchRun
            rw [if_neg h0, if_neg hqne]
            simp only [Option.getD_some, Bool.not_true]
            rw [if_pos (by simp), heq]
            rfl
          · simp only [List.length_cons, hfl]
            omega

theorem lastFlagged_none_iff : ∀ f : List Bool,
    lastFlagged f = none ↔ ∀ j, f.getD j false = false := by
  intro f
  induction f with
  | nil =>
    constructor
    · intro _ j; simp
    · intro _; rfl
  | cons b rest ih =>
    constructor
    · intro h j
      unfold lastFlagged at h
      cases hr : lastFlagged rest with
      | some i => rw [hr] at h; exact absurd h (by simp)
      | none =>
        rw [hr] at h
        have hb : b = false := by
          by_contra hb
          rw [Bool.not_eq_false] at hb
          rw [hb] at h
          simp at h
        cases j with
        | zero => simpa using hb
        | succ j =>
          simp only [List.getD_cons_succ]
          exact (ih.mp hr) j
    · intro h
      have hrest : lastFlagged rest = none := ih.mpr (fun j => by
        have hj := h (j + 1); simpa using hj)
      have hb : b = false := by simpa using h 0
      unfold lastFlagged
      rw [hrest, hb]
      simp

theorem lastFlagged_some_spec : ∀ f : List Bool, ∀ d : Nat, lastFlagged f = some d →
    d < f.length ∧ f.getD d false = true ∧ ∀ j, f.getD j false = true → j ≤ d := by
  intro f
  induction f with
  | nil => intro d h; simp [lastFlagged] at h
  | cons b rest ih =>
    intro d h
    unfold lastFlagged at h
    cases hr : lastFlagged rest with
    | some i =>
      rw [hr] at h
      simp only [Option.some.injEq] at h
      subst h
      rcases ih i hr with ⟨hlt, hget, hmax⟩
      refine ⟨by simp only [List.length_cons]; omega, by simpa using hget, ?_⟩
      intro j hj
      cases j with
      | zero => omega
      | succ j =>
        simp only [List.getD_cons_succ] at hj
        have hle := hmax j hj
        omega
    | none =>
      rw [hr] at h
      by_cases hb : b = true
      · rw [hb] at h
        simp only [if_true, Option.some.injEq] at h
        subst h
        refine ⟨by simp, by simpa using hb, ?_⟩
        intro j hj
        cases j with
        | zero => exact Nat.le_refl 0
        | succ j =>
          simp only [List.getD_cons_succ] at hj
          rw [(lastFlagged_none_iff rest).mp hr j] at hj
          exact absurd hj (by simp)
      · rw [Bool.not_eq_true] at hb
        rw [hb] at h
        simp at h

theorem getD_take_lt (l : List Bool) (x : Bool) (i n : Nat) (h : i < n) :
    (l.take n).getD i x = l.getD i x := by
  rw [List.getD_eq_getElem?_getD, List.getD_eq_getElem?_getD, List.getElem?_take_of_lt h]

theorem take_succ_eq (a : List Bool) (d : Nat) (hd : d < a.length) :
    a.take (d + 1) = a.take d ++ [a.getD d false] := by
  rw [List.take_succ, List.getElem?_eq_getElem hd, List.getD_eq_getElem?_getD,
    List.getElem?_eq_getElem hd]
  rfl

theorem leadsWith_iff_take : ∀ qs a : List Bool, leadsWith qs a = true ↔ a.take qs.length = qs := by
  intro qs
  induction qs with
  | nil => intro a; simp [leadsWith]
  | cons q qs ih =>
    intro a
    cases a with
    | nil => simp [leadsWith]
    | cons a0 as =>
      simp only [leadsWith, Bool.and_eq_true, beq_iff_eq, List.length_cons,
        List.take_succ_cons, List.cons.injEq]
      rw [ih as]
      constructor
      · rintro ⟨h1, h2⟩; exact ⟨h1.symm, h2⟩
      · rintro ⟨h1, h2⟩; exact ⟨h1.symm, h2⟩

theorem branch_leadsWith (p a : List Bool) (d : Nat) (hd : d < a.length) (hd' : d ≤ p.length) :
    leadsWith (p.take d ++ [true]) a = true ↔
      (a.take d = p.take d ∧ a.getD d false = true) := by
  rw [leadsWith_iff_take]
  have hlq : (p.take d ++ [true]).length = d + 1 := by
    simp only [List.length_append, List.length_take, List.length_cons, List.length_nil]
    omega
  rw [hlq, take_succ_eq a d hd]
  constructor
  · intro h
    have hlen1 : (a.take d).length = d := by
      simp only [List.length_take]
      omega
    have hlen2 : (p.take d).length = d := by
      simp only [List.length_take]
      omega
    rcases List.append_inj h (by rw [hlen1, hlen2]) with ⟨h1, h2⟩
    simp only [List.cons.injEq] at h2
    exact ⟨h1, h2.1⟩
  · rintro ⟨h1, h2⟩
    rw [h1, h2]

theorem deviceSearchStep_first (bus : List (List Bool)) (h64 : ∀ a ∈ bus, a.length = 64)
    (hne : bus ≠ []) :
    ∃ m f, deviceSearchStep bus none = some (m, ⟨m, f⟩) ∧ m ∈ bus ∧
      (∀ b ∈ bus, lexLt b m = false) ∧ StateInv bus ⟨m, f⟩ := by
  rcases searchRun_free (List.replicate 64 none) bus
    (fun x hx => List.eq_of_mem_replicate hx) hne (by simpa using h64) with
    ⟨m, f, heq, hmem, hmin, hfg, hml, hfl⟩
  refine ⟨m, f, ?_, hmem, hmin, hmem, by simpa using hml, by simpa using hfl, hfg⟩
  simp only [deviceSearchStep, if_neg hne, heq, Option.map_some']

theorem deviceSearchStep_exhausted (bus : List (List Bool)) (st : SearchState)
    (h64 : ∀ a ∈ bus, a.length = 64) (hinv : StateInv bus st)
    (hns : ∀ b ∈ bus, lexLt st.address b = false) :
    deviceSearchStep bus (some st) = none := by
  obtain ⟨hmem, hal, hfl, hfg⟩ := hinv
  by_cases hbe : bus = []
  · simp [deviceSearchStep, hbe]
  · have hflag : lastFlagged st.flags = none := by
      rw [lastFlagged_none_iff]
      intro j
      by_contra hj
      rw [Bool.not_eq_false] at hj
      rcases (hfg j).mp hj with ⟨hmj, a, ha, ht, hga⟩
      have hlt : lexLt st.address a = true := by
        rw [lexLt_iff st.address a (by rw [hal, h64 a ha])]
        exact ⟨j, ht.symm, hmj, hga⟩
      rw [hns a ha] at hlt
      exact absurd hlt (by simp)
    simp only [deviceSearchStep, if_neg hbe, hflag]

theorem deviceSearchStep_succ (bus : List (List Bool)) (st : SearchState)
    (h64 : ∀ a ∈ bus, a.length = 64) (hinv : StateInv bus st)
    (b0 : List Bool) (hb0 : b0 ∈ bus) (hlt0 : lexLt st.address b0 = true) :
    ∃ m f, deviceSearchStep bus (some st) = some (m, ⟨m, f⟩) ∧ m ∈ bus ∧
      lexLt st.address m = true ∧
      (∀ b ∈ bus, lexLt st.address b = true → lexLt b m = false) ∧
      StateInv bus ⟨m, f⟩ := by
  obtain ⟨hmem, hal, hfl, hfg⟩ := hinv
  have hbne : bus ≠ [] := List.ne_nil_of_mem hb0
  have hstb0 : st.address.length = b0.length := by rw [hal, h64 b0 hb0]
  rcases (lexLt_iff st.address b0 hstb0).mp hlt0 with ⟨j0, ht0, hpj0, hbj0⟩
  have hflagj0 : st.flags.getD j0 false = true :=
    (hfg j0).mpr ⟨hpj0, b0, hb0, ht0.symm, hbj0⟩
  cases hlf : lastFlagged st.flags with
  | none =>
    rw [(lastFlagged_none_iff st.flags).mp hlf j0] at hflagj0
    exact absurd hflagj0 (by simp)
  | some d =>
    rcases lastFlagged_some_spec st.flags d hlf with ⟨hdlt, hfd, hdmax⟩
    have hd64 : d < 64 := by rw [hfl] at hdlt; exact hdlt
    rcases (hfg d).mp hfd with ⟨hpd, aw, haw, htw, hgaw⟩
    have hplan : resumePlan st.address d =
        (st.address.take d ++ [true]).map some ++ List.replicate (64 - d - 1) none := by
      simp only [resumePlan, List.map_append, List.map_cons, List.map_nil, hal,
        List.append_assoc, List.singleton_append]
    have hlenq : ∀ a ∈ bus,
        a.length = (st.address.take d ++ [true]).length + (List.replicate (64 - d - 1)
          (none : Option Bool)).length := by
      intro a ha
      rw [h64 a ha]
      simp only [List.length_append, List.length_take, List.length_cons, List.length_nil,
        List.length_replicate, hal]
      omega
    have hex : ∃ a ∈ bus, leadsWith (st.address.take d ++ [true]) a = true := by
      refine ⟨aw, haw, ?_⟩
      rw [branch_leadsWith st.address aw d (by rw [h64 aw haw]; exact hd64)
        (by rw [hal]; omega)]
      exact ⟨htw, hgaw⟩
    rcases searchRun_resume (st.address.take d ++ [true]) bus
      (List.replicate (64 - d - 1) none) (fun x hx => List.eq_of_mem_replicate hx)
      hlenq hex with ⟨m, f, heq, hmemR, hlwR, hminR, hfgR, hmlR, hflR⟩
    have hm64 : m.length = 64 := by
      rw [hmlR]
      simp only [List.length_append, List.length_take, List.length_cons, List.length_nil,
        List.length_replicate, hal]
      omega
    have hf64 : f.length = 64 := by
      rw [hflR]
      simp only [List.length_append, List.length_take, List.length_cons, List.length_nil,
        List.length_replicate, hal]
      omega
    have hmbr := (branch_leadsWith st.address m d (by rw [hm64]; exact hd64)
      (by rw [hal]; omega)).mp hlwR
    have hltm : lexLt st.address m = true := by
      rw [lexLt_iff st.address m (by rw [hal, hm64])]
      exact ⟨d, hmbr.1.symm, hpd, hmbr.2⟩
    refine ⟨m, f, ?_, hmemR, hltm, ?_, hmemR, hm64, hf64, hfgR⟩
    · simp only [deviceSearchStep, if_neg hbne, hlf, hplan, heq, Option.map_some']
    · intro b hb hltb
      rcases (lexLt_iff st.address b (by rw [hal, h64 b hb])).mp hltb with ⟨j, htj, hpj, hbj⟩
      have hjflag : st.flags.getD j false = true := (hfg j).mpr ⟨hpj, b, hb, htj.symm, hbj⟩
      have hjd : j ≤ d := hdmax j hjflag
      by_cases hjeq : j = d
      · subst hjeq
        apply hminR b hb
        rw [branch_leadsWith st.address b j (by rw [h64 b hb]; omega) (by rw [hal]; omega)]
        exact ⟨htj.symm, hbj⟩
      · have hjlt : j < d := by omega
        have hmtake : m.take j = b.take j := by
          have h1 : (m.take d).take j = (st.address.take d).take j := by rw [hmbr.1]
          rw [List.take_take, List.take_take] at h1
          simp only [Nat.min_def, if_pos (by omega : j ≤ d)] at h1
          rw [h1, ← htj]
        have hmj : m.getD j false = false := by
          have h1 : (m.take d).getD j false = (st.address.take d).getD j false := by
            rw [hmbr.1]
          rw [getD_take_lt m false j d hjlt, getD_take_lt st.address false j d hjlt] at h1
          rw [h1, hpj]
        have hmb : lexLt m b = true := by
          rw [lexLt_iff m b (by rw [hm64, h64 b hb])]
          exact ⟨j, hmtake, hmj, hbj⟩
        exact lexLt_asymm m b hmb

theorem filter_perm_cons_of_mem : ∀ (l : List (List Bool)) (m : List Bool)
    (q : List Bool → Bool), l.Nodup → m ∈ l → q m = true →
    (l.filter q).Perm (m :: l.filter (fun b => q b && (b != m))) := by
  intro l
  induction l with
  | nil => intro m q _ hm _; simp at hm
  | cons x l ih =>
    intro m q hnd hm hqm
    rcases List.nodup_cons.mp hnd with ⟨hxl, hndl⟩
    rcases List.mem_cons.mp hm with hmx | hml
    · subst hmx
      have hL : List.filter q (m :: l) = m :: List.filter q l := List.filter_cons_of_pos hqm
      have hR : List.filter (fun b => q b && (b != m)) (m :: l) =
          List.filter (fun b => q b && (b != m)) l := List.filter_cons_of_neg (by simp)
      have hRl : List.filter (fun b => q b && (b != m)) l = List.filter q l :=
        List.filter_congr (fun b hb => by
          have hbm : b ≠ m := fun h => hxl (h ▸ hb)
          simp [hbm])
      rw [hL, hR, hRl]
    · have hmx : m ≠ x := fun h => hxl (h ▸ hml)
      cases hqx : q x with
      | false =>
        have hL : List.filter q (x :: l) = List.filter q l :=
          List.filter_cons_of_neg (by simp [hqx])
        have hR : List.filter (fun b => q b && (b != m)) (x :: l) =
            List.filter (fun b => q b && (b != m)) l :=
          List.filter_cons_of_neg (by simp [hqx])
        rw [hL, hR]
        exact ih m q hndl hml hqm
      | true =>
        have hL : List.filter q (x :: l) = x :: List.filter q l :=
          List.filter_cons_of_pos hqx
        have hR : List.filter (fun b => q b && (b != m)) (x :: l) =
            x :: List.filter (fun b => q b && (b != m)) l :=
          List.filter_cons_of_pos (by simp [hqx, hmx.symm])
        rw [hL, hR]
        exact ((ih m q hndl hml hqm).cons x).trans (List.Perm.swap m x _)

theorem succ_filter_step (bus : List (List Bool)) (p m : List Bool)
    (h64 : ∀ a ∈ bus, a.length = 64) (hnd : bus.Nodup) (hm64 : m.length = 64)
    (hmem : m ∈ bus) (hltm : lexLt p m = true)
    (hmin : ∀ b ∈ bus, lexLt p b = true → lexLt b m = false) :
    (bus.filter (fun b => lexLt p b)).Perm (m :: bus.filter (fun b => lexLt m b)) := by
  have hperm1 := filter_perm_cons_of_mem bus m (fun b => lexLt p b) hnd hmem hltm
  have hpt : ∀ b ∈ bus, (lexLt p b && (b != m)) = lexLt m b := by
    intro b hb
    by_cases hbm : b = m
    · subst hbm
      simp [lexLt_irrefl]
    · have hne' : (b != m) = true := by simp [hbm]
      rw [hne', Bool.and_true]
      by_cases hsb : lexLt p b = true
      · rw [hsb]
        have hbmle := hmin b hb hsb
        rcases lexLt_total b m (by rw [h64 b hb, hm64]) hbm with h | h
        · rw [hbmle] at h; exact absurd h (by simp)
        · exact h.symm
      · rw [Bool.not_eq_true] at hsb
        rw [hsb]
        by_contra hmb
        have hmb' : lexLt m b = true := by
          cases hx : lexLt m b
          · rw [hx] at hmb; exact absurd rfl hmb
          · rfl
        rw [lexLt_trans p m b hltm hmb'] at hsb
        exact absurd hsb (by simp)
  have hcongr := List.filter_congr hpt
  rw [hcongr] at hperm1
  exact hperm1

theorem searchAllAux_spec : ∀ (cnt : Nat) (bus : List (List Bool)) (st : SearchState)
    (fuel : Nat), (∀ a ∈ bus, a.length = 64) → bus.Nodup → StateInv bus st →
    (bus.filter (fun b => lexLt st.address b)).length = cnt → cnt ≤ fuel →
    searchAllAux fuel bus (some st) = searchAllAux cnt bus (some st) ∧
    (searchAllAux fuel bus (some st)).Perm (bus.filter (fun b => lexLt st.address b)) := by
  intro cnt
  induction cnt with
  | zero =>
    intro bus st fuel h64 hnd hinv hcnt _
    have hfe : bus.filter (fun b => lexLt st.address b) = [] := List.length_eq_zero.mp hcnt
    have hns : ∀ b ∈ bus, lexLt st.address b = false := by
      intro b hb
      cases hx : lexLt st.address b
      · rfl
      · have hbf : b ∈ bus.filter (fun b => lexLt st.address b) := List.mem_filter.mpr ⟨hb, hx⟩
        rw [hfe] at hbf
        simp at hbf
    have hstep := deviceSearchStep_exhausted bus st h64 hinv hns
    have hz : ∀ fl : Nat, searchAllAux fl bus (some st) = [] := by
      intro fl
      cases fl with
      | zero => rfl
      | succ fl => simp [searchAllAux, hstep]
    rw [hz fuel, hz 0, hfe]
    exact ⟨rfl, List.Perm.refl []⟩
  | succ cnt ih =>
    intro bus st fuel h64 hnd hinv hcnt hfuel
    have hfne : bus.filter (fun b => lexLt st.address b) ≠ [] := by
      intro h
      rw [h] at hcnt
      simp at hcnt
    rcases List.exists_mem_of_ne_nil _ hfne with ⟨b0, hb0f⟩
    rcases List.mem_filter.mp hb0f with ⟨hb0, hlt0⟩
    rcases deviceSearchStep_succ bus st h64 hinv b0 hb0 hlt0 with
      ⟨m, f, hstep, hmem, hltm, hmin, hinv'⟩
    obtain ⟨_, hm64, _, _⟩ := hinv'
    have hperm := succ_filter_step bus st.address m h64 hnd hm64 hmem hltm hmin
    have hlen : (bus.filter (fun b => lexLt m b)).length = cnt := by
      have hx := hperm.length_eq
      rw [hcnt] at hx
      simp only [List.length_cons] at hx
      omega
    cases fuel with
    | zero => omega
    | succ fuel =>
      have hfuel' : cnt ≤ fuel := by omega
      have hstep1 : ∀ fl : Nat, searchAllAux (fl + 1) bus (some st) =
          m :: searchAllAux fl bus (some ⟨m, f⟩) := by
        intro fl
        simp [searchAllAux, hstep]
      have hinv2 : StateInv bus ⟨m, f⟩ := ⟨hmem, hm64, by assumption, by assumption⟩
      rcases ih bus ⟨m, f⟩ fuel h64 hnd hinv2 hlen hfuel' with ⟨heq1, hperm1⟩
      rcases ih bus ⟨m, f⟩ cnt h64 hnd hinv2 hlen (Nat.le_refl cnt) with ⟨heq2, _⟩
      constructor
      · rw [hstep1 fuel, hstep1 cnt, heq1, heq2]
      · rw [hstep1 fuel]
        exact ((hperm1.cons m).trans hperm.symm)

/-- C1: on every bus of distinct 64-bit addresses (including ones sharing
prefix bits, which force collision bits), repeated search calls threading
the evolving SearchState return every address present exactly once, giving
a permutation of the bus; supplying any extra fuel returns nothing more,
because once the tree is exhausted every further call returns none; and the
very first call returns none exactly when the bus is empty, in which case
the collected result set is empty. -/
theorem device_search_complete (bus : List (List Bool))
    (h64 : ∀ a ∈ bus, a.length = 64) (hnd : bus.Nodup) :
    (searchAll bus).Perm bus ∧
    (∀ k : Nat, searchAllAux (bus.length + k) bus none = searchAll bus) ∧
    (deviceSearchStep bus none = none ↔ bus = []) ∧
    (bus = [] → searchAll bus = []) := by
  by_cases hbe : bus = []
  · subst hbe
    have hz : ∀ fl : Nat, searchAllAux fl [] none = [] := by
      intro fl
      cases fl with
      | zero => rfl
      | succ fl => simp [searchAllAux, deviceSearchStep]
    refine ⟨List.Perm.refl _, ?_, by simp [deviceSearchStep], fun _ => rfl⟩
    intro k
    simp [searchAll, hz]
  · rcases deviceSearchStep_first bus h64 hbe with ⟨m, f, hstep, hmem, hminall, hinv⟩
    obtain ⟨_, hm64, hf64, hfg⟩ := hinv
    have hinv2 : StateInv bus ⟨m, f⟩ := ⟨hmem, hm64, hf64, hfg⟩
    have hperm0 : bus.Perm (m :: bus.filter (fun b => lexLt m b)) := by
      have hp := filter_perm_cons_of_mem bus m (fun _ => true) hnd hmem rfl
      have hpt : ∀ b ∈ bus, (true && (b != m)) = lexLt m b := by
        intro b hb
        by_cases hbm : b = m
        · subst hbm
          simp [lexLt_irrefl]
        · have hbm' : (b != m) = true := by simp [hbm]
          rw [hbm', Bool.true_and]
          rcases lexLt_total b m (by rw [h64 b hb, hm64]) hbm with h | h
          · rw [hminall b hb] at h
            exact absurd h (by simp)
          · exact h.symm
      rw [List.filter_congr hpt] at hp
      simpa using hp
    have hlenb : bus.length = (bus.filter (fun b => lexLt m b)).length + 1 := by
      have hx := hperm0.length_eq
      simpa using hx
    have hstep1 : ∀ fl : Nat, searchAllAux (fl + 1) bus none =
        m :: searchAllAux fl bus (some ⟨m, f⟩) := by
      intro fl
      simp [searchAllAux, hstep]
    have hcnt : (bus.filter (fun b => lexLt (SearchState.mk m f).address b)).length =
        (bus.filter (fun b => lexLt m b)).length := rfl
    refine ⟨?_, ?_, ?_, fun h => absurd h hbe⟩
    · unfold searchAll
      rw [hlenb, hstep1]
      rcases searchAllAux_spec (bus.filter (fun b => lexLt m b)).length bus ⟨m, f⟩
        (bus.filter (fun b => lexLt m b)).length h64 hnd hinv2 hcnt
        (Nat.le_refl _) with ⟨_, hperm1⟩
      exact ((hperm1.cons m).trans hperm0.symm)
    · intro k
      have harith : bus.length + k = ((bus.filter (fun b => lexLt m b)).length + k) + 1 := by
        omega
      unfold searchAll
      rw [harith, hstep1, hlenb, hstep1]
      rcases searchAllAux_spec (bus.filter (fun b => lexLt m b)).length bus ⟨m, f⟩
        ((bus.filter (fun b => lexLt m b)).length + k) h64 hnd hinv2 hcnt
        (Nat.le_add_right _ _) with ⟨heqk, _⟩
      rcases searchAllAux_spec (bus.filter (fun b => lexLt m b)).length bus ⟨m, f⟩
        (bus.filter (fun b => lexLt m b)).length h64 hnd hinv2 hcnt
        (Nat.le_refl _) with ⟨heq0, _⟩
      rw [heqk, heq0]
    · constructor
      · intro h
        rw [hstep] at h
        exact absurd h (by simp)
      · intro h
        exact absurd h hbe

/-- Witness for C1 on the three-device demo bus whose addresses share
prefix bits: the search enumeration is a permutation of the bus and extra
fuel returns nothing more. -/
theorem device_search_complete_witness :
    (searchAll demoBus).Perm demoBus ∧
    searchAllAux (demoBus.length + 2) demoBus none = searchAll demoBus := by
  have h := device_search_complete demoBus (by decide) (by decide)
  exact ⟨h.1, h.2.1 2⟩

theorem getTempAux_eq_process (rf : List Bool → Except OneWireError (List Nat)) :
    ∀ (fuel : Nat) (bus : List (List Bool)) (st : Option SearchState),
    getTempAux rf fuel bus st = processAddrs rf (searchAllAux fuel bus st) := by
  intro fuel
  induction fuel with
  | zero => intro bus st; rfl
  | succ fuel ih =>
    intro bus st
    cases hstep : deviceSearchStep bus st with
    | none => simp [getTempAux, searchAllAux, hstep, processAddrs]
    | some r =>
      obtain ⟨addr, st'⟩ := r
      simp only [getTempAux, searchAllAux, hstep, processAddrs]
      cases hfam : (familyCodeOf addr != ds18b20FamilyCode) with
      | true =>
        simp only [if_pos]
        exact ih bus (some st')
      | false =>
        simp only [Bool.false_eq_true, if_false]
        cases hrd : readDevice rf addr with
        | error e => rfl
        | ok d =>
          simp only [ih bus (some st')]

theorem process_ok (rf : List Bool → Except OneWireError (List Nat))
    (dataFn : List Bool → SensorData) :
    ∀ l : List (List Bool),
    (∀ a ∈ l, familyCodeOf a = ds18b20FamilyCode → readDevice rf a = .ok (dataFn a)) →
    processAddrs rf l =
      (.ok ((l.filter (fun a => familyCodeOf a == ds18b20FamilyCode)).map
        (fun a => (a, (dataFn a).temperature))),
       l.filter (fun a => familyCodeOf a == ds18b20FamilyCode)) := by
  intro l
  induction l with
  | nil => intro _; rfl
  | cons a l ih =>
    intro hok
    have ihl := ih (fun b hb => hok b (List.mem_cons_of_mem a hb))
    cases hfam : (familyCodeOf a == ds18b20FamilyCode) with
    | false =>
      have hfam' : (familyCodeOf a != ds18b20FamilyCode) = true := by
        simp [bne, hfam]
      have hfilter : List.filter (fun a => familyCodeOf a == ds18b20FamilyCode) (a :: l) =
          List.filter (fun a => familyCodeOf a == ds18b20FamilyCode) l :=
        List.filter_cons_of_neg (by simp [hfam])
      simp only [processAddrs, hfam', if_pos, hfilter]
      exact ihl
    | true =>
      have hfam' : (familyCodeOf a != ds18b20FamilyCode) = false := by
        simp [bne, hfam]
      have hread := hok a (List.mem_cons_self a l) (by simpa using hfam)
      have hfilter : List.filter (fun a => familyCodeOf a == ds18b20FamilyCode) (a :: l) =
          a :: List.filter (fun a => familyCodeOf a == ds18b20FamilyCode) l :=
        List.filter_cons_of_pos (by simp [hfam])
      simp only [processAddrs, hfam', Bool.false_eq_true, if_false, hread, hfilter, ihl,
        List.map_cons, Except.map]

theorem process_abort (rf : List Bool → Except OneWireError (List Nat)) (e : OneWireError) :
    ∀ (l l1 : List (List Bool)) (a : List Bool) (l2 : List (List Bool)),
    l.filter (fun x => familyCodeOf x == ds18b20FamilyCode) = l1 ++ a :: l2 →
    (∀ b ∈ l1, ∃ d, readDevice rf b = .ok d) →
    readDevice rf a = .error e →
    processAddrs rf l = (.error e, l1 ++ [a]) := by
  intro l
  induction l with
  | nil =>
    intro l1 a l2 h _ _
    cases l1 <;> simp at h
  | cons x l ih =>
    intro l1 a l2 hf hok hbad
    cases hfam : (familyCodeOf x == ds18b20FamilyCode) with
    | false =>
      have hfam' : (familyCodeOf x != ds18b20FamilyCode) = true := by
        simp [bne, hfam]
      have hfilter : List.filter (fun x => familyCodeOf x == ds18b20FamilyCode) (x :: l) =
          List.filter (fun x => familyCodeOf x == ds18b20FamilyCode) l :=
        List.filter_cons_of_neg (by simp [hfam])
      rw [hfilter] at hf
      simp only [processAddrs, hfam', if_pos]
      exact ih l1 a l2 hf hok hbad
    | true =>
      have hfam' : (familyCodeOf x != ds18b20FamilyCode) = false := by
        simp [bne, hfam]
      have hfilter : List.filter (fun x => familyCodeOf x == ds18b20FamilyCode) (x :: l) =
          x :: List.filter (fun x => familyCodeOf x == ds18b20FamilyCode) l :=
        List.filter_cons_of_pos (by simp [hfam])
      rw [hfilter] at hf
      cases l1 with
      | nil =>
        simp only [List.nil_append, List.cons.injEq] at hf
        obtain ⟨hxa, _⟩ := hf
        subst hxa
        simp only [processAddrs, hfam', Bool.false_eq_true, if_false, hbad, List.nil_append]
      | cons b l1 =>
        simp only [List.cons_append, List.cons.injEq] at hf
        obtain ⟨hxb, hf'⟩ := hf
        subst hxb
        rcases hok x (List.mem_cons_self x l1) with ⟨d, hd⟩
        have ihl := ih l1 a l2 hf' (fun c hc => hok c (List.mem_cons_of_mem x hc)) hbad
        simp only [processAddrs, hfam', Bool.false_eq_true, if_false, hd, ihl,
          List.cons_append, Except.map]

/-- C9: family-code filtering is a post-filter on the addresses the search
returns, not part of the search itself: in the get_temperature loop every
discovered address whose family code is not the DS18B20 one is skipped
without being read, while the search state still advances past it, so when
the family-matching devices all read successfully the loop reads exactly
the family-matching part of the full enumeration, in enumeration order,
and reports one temperature per matching device. -/
theorem family_filter_post (bus : List (List Bool))
    (rf : List Bool → Except OneWireError (List Nat)) (dataFn : List Bool → SensorData)
    (hok : ∀ a ∈ searchAll bus, familyCodeOf a = ds18b20FamilyCode →
      readDevice rf a = .ok (dataFn a)) :
    getTemperature bus rf =
      (.ok (((searchAll bus).filter (fun a => familyCodeOf a == ds18b20FamilyCode)).map
        (fun a => (a, (dataFn a).temperature))),
       (searchAll bus).filter (fun a => familyCodeOf a == ds18b20FamilyCode)) := by
  unfold getTemperature
  rw [getTempAux_eq_process]
  exact process_ok rf dataFn (searchAll bus) hok

/-- Witness for C9 on a bus where a foreign-family device sits on the bus:
the loop reads exactly the two matching devices and skips the foreign one
while still enumerating past it. -/
theorem family_filter_post_witness :
    getTemperature [addrA, addrX, addrB] demoReadOk =
      (.ok (((searchAll [addrA, addrX, addrB]).filter
          (fun a => familyCodeOf a == ds18b20FamilyCode)).map
        (fun a => (a, (decodeScratchpad demoResp).temperature))),
       (searchAll [addrA, addrX, addrB]).filter
          (fun a => familyCodeOf a == ds18b20FamilyCode)) :=
  family_filter_post [addrA, addrX, addrB] demoReadOk (fun _ => decodeScratchpad demoResp)
    (fun _ _ _ => rfl)

/-- C4 counterexample: on the two-device bus [addrA, addrB] where every
read fails, the read failure at addrA aborts the enumeration: addrB is on
the bus, family-matching and discoverable by the search, yet it is never
read and the loop returns the error instead of a per-device result for
every device. -/
theorem read_failure_aborts_counterexample :
    getTemperature [addrA, addrB] demoReadBad = (.error .crcMismatch, [addrA]) ∧
    addrB ∈ searchAll [addrA, addrB] ∧ familyCodeOf addrB = ds18b20FamilyCode ∧
    addrB ∉ (getTemperature [addrA, addrB] demoReadBad).2 := by
  exact ⟨rfl, by decide, by decide, by decide⟩

/-- C4 as amended: a failure while reading one device's data aborts the
enumeration of the remaining devices: get_temperature returns that error,
the devices read are exactly the family-matching ones up to and including
the failing device, and the matching devices after it are left unread. -/
theorem read_failure_aborts (bus : List (List Bool))
    (rf : List Bool → Except OneWireError (List Nat)) (e : OneWireError)
    (l1 : List (List Bool)) (a : List Bool) (l2 : List (List Bool))
    (hsplit : (searchAll bus).filter (fun x => familyCodeOf x == ds18b20FamilyCode) =
      l1 ++ a :: l2)
    (hok : ∀ b ∈ l1, ∃ d, readDevice rf b = .ok d)
    (hbad : readDevice rf a = .error e) :
    getTemperature bus rf = (.error e, l1 ++ [a]) := by
  unfold getTemperature
  rw [getTempAux_eq_process]
  exact process_abort rf e (searchAll bus) l1 a l2 hsplit hok hbad

/-- Witness for the amended C4: with a transport that reads addrA correctly
and fails on addrB, the loop reads addrA, fails at addrB and stops there
with the error. -/
theorem read_failure_aborts_witness :
    getTemperature [addrA, addrB] demoReadAB = (.error .crcMismatch, [addrA] ++ [addrB]) := by
  apply read_failure_aborts [addrA, addrB] demoReadAB .crcMismatch [addrA] addrB []
  · decide
  · intro b hb
    rw [List.mem_singleton] at hb
    subst hb
    exact ⟨decodeScratchpad demoResp, rfl⟩
  · rfl
